import Mathlib

/-!
Verification development for the reverse-split checker repository.

The definitions below are a shallow embedding of the record-reconciliation
core of the program: the string/date normalisation helpers
(`_norm_symbol`, `_norm_effective_date`, `_split_key` in
`reverse_split_checker.py`), the per-candidate reconciliation loop of
`main` (lookup / migration / merge / skip), ledger pruning and insertion,
the cross-source merge of `get_reverse_splits`, the still-buyable
predicate, the market-day helper of `helper_functions.py`, the fractional
result classification of `check_roundup.py`, the priority `sort_key` of
`helper_functions.py`, and the message categorisation of
`send_discord_msg.py`.

Modelling conventions:
* Calendar dates are represented by their serial day number (days since
  0000-03-01 of the proleptic Gregorian calendar, the calendar used by
  Python's `datetime.date`).  Comparison of `date` objects corresponds to
  comparison of serial numbers, `timedelta(days=1)` to `+ 1`, and
  `date.weekday()` to `(n + 2) % 7` (Monday = 0).
* `datetime.strptime` with the four formats used by the program is
  modelled by recursive-descent parsers that follow Python's `_strptime`
  regular expressions (ordered alternation with backtracking, whole-string
  match) followed by the `datetime` constructor's range checks.
* Python `str.strip`/`str.lower`/`str.upper` are modelled for ASCII
  whitespace and ASCII letters; every constant the program compares
  against is ASCII.
* Python dicts are modelled as insertion-ordered association lists with
  unique keys; `d.pop(k)` removes the binding of `k`, assignment to an
  existing key replaces in place, assignment to a fresh key appends.
* A Python `set` union of URL lists has unspecified iteration order; the
  embedding fixes the first-occurrence order (`eraseDups`), which is the
  only set-order-independent content.
-/

/-- Whitespace characters recognised by Python's `str.strip()` (ASCII part). -/
def isPySpace (c : Char) : Bool :=
  c = ' ' ∨ c = '\t' ∨ c = '\n' ∨ c = '\x0d' ∨ c = '\x0b' ∨ c = '\x0c'

/-- Strip leading and trailing whitespace from a list of characters. -/
def stripList (l : List Char) : List Char :=
  ((l.dropWhile isPySpace).reverse.dropWhile isPySpace).reverse

/-- Python `s.strip()`. -/
def pyStrip (s : String) : String := String.mk (stripList s.toList)

/-- Python `s.lower()` (ASCII letters; all compared constants are ASCII). -/
def pyLower (s : String) : String := String.mk (s.toList.map Char.toLower)

/-- Python `s.upper()` (ASCII letters). -/
def pyUpper (s : String) : String := String.mk (s.toList.map Char.toUpper)

/-- Python `needle in haystack` substring containment, on character lists. -/
def listContains (hay needle : List Char) : Bool :=
  if needle.isPrefixOf hay then true
  else match hay with
    | [] => false
    | _ :: t => listContains t needle

/-- Python `hay.find(needle) >= 0` / `needle in hay` on strings. -/
def strContains (hay needle : String) : Bool :=
  listContains hay.toList needle.toList

/-- Python `s.startswith(p)`. -/
def strStartsWith (s p : String) : Bool := p.toList.isPrefixOf s.toList

/-- Python `s.endswith(p)`. -/
def strEndsWith (s p : String) : Bool :=
  p.toList.reverse.isPrefixOf s.toList.reverse

/-- `'0' ≤ c ≤ '9'`, the digit class of `_strptime`'s regular expressions. -/
def isDigitCh (c : Char) : Bool := '0' ≤ c ∧ c ≤ '9'

/-- Numeric value of a digit character. -/
def dval (c : Char) : Nat := c.toNat - 48

/-- The decimal digit character for `n ≤ 9` (used by `strftime` padding). -/
def digitCh (n : Nat) : Char :=
  if n = 0 then '0' else if n = 1 then '1' else if n = 2 then '2'
  else if n = 3 then '3' else if n = 4 then '4' else if n = 5 then '5'
  else if n = 6 then '6' else if n = 7 then '7' else if n = 8 then '8'
  else '9'

/-- Days in a month of the proleptic Gregorian calendar (Python `datetime`). -/
def daysInMonth (y m : Nat) : Nat :=
  if m = 2 then
    if y % 4 = 0 ∧ (y % 100 ≠ 0 ∨ y % 400 = 0) then 29 else 28
  else if m = 4 ∨ m = 6 ∨ m = 9 ∨ m = 11 then 30
  else 31

/-- The range checks of the `datetime.date` constructor (`MINYEAR = 1`,
`MAXYEAR = 9999`, month and day ranges). `strptime` raises `ValueError`
when they fail, which makes the enclosing format attempt fail. -/
def ctorOK (y m d : Nat) : Bool :=
  1 ≤ y ∧ y ≤ 9999 ∧ 1 ≤ m ∧ m ≤ 12 ∧ 1 ≤ d ∧ d ≤ daysInMonth y m

/-- Alternatives of `_strptime`'s month pattern `1[0-2]|0[1-9]|[1-9]`,
in the regex's alternation order, each with the remaining input. -/
def monthAlts (cs : List Char) : List (Nat × List Char) :=
  (match cs with
   | '1' :: c :: r =>
     if c = '0' ∨ c = '1' ∨ c = '2' then [(10 + dval c, r)] else []
   | _ => []) ++
  (match cs with
   | '0' :: c :: r =>
     if '1' ≤ c ∧ c ≤ '9' then [(dval c, r)] else []
   | _ => []) ++
  (match cs with
   | c :: r =>
     if '1' ≤ c ∧ c ≤ '9' then [(dval c, r)] else []
   | _ => [])

/-- Alternatives of `_strptime`'s day pattern `3[01]|[12]\d|0[1-9]|[1-9]`,
in the regex's alternation order. -/
def dayAlts (cs : List Char) : List (Nat × List Char) :=
  (match cs with
   | '3' :: c :: r =>
     if c = '0' ∨ c = '1' then [(30 + dval c, r)] else []
   | _ => []) ++
  (match cs with
   | c :: c2 :: r =>
     if (c = '1' ∨ c = '2') ∧ isDigitCh c2 then [(10 * dval c + dval c2, r)] else []
   | _ => []) ++
  (match cs with
   | '0' :: c :: r =>
     if '1' ≤ c ∧ c ≤ '9' then [(dval c, r)] else []
   | _ => []) ++
  (match cs with
   | c :: r =>
     if '1' ≤ c ∧ c ≤ '9' then [(dval c, r)] else []
   | _ => [])

/-- Try the alternatives in order with the rest of the match as the
continuation; this is the regex engine's backtracking order. -/
def tryAlts {α : Type} (k : Nat → List Char → Option α) :
    List (Nat × List Char) → Option α
  | [] => none
  | (v, r) :: rest =>
    match k v r with
    | some a => some a
    | none => tryAlts k rest

/-- `_strptime`'s year pattern `\d\d\d\d` (exactly four digits). -/
def read4 : List Char → Option (Nat × List Char)
  | a :: b :: c :: d :: r =>
    if isDigitCh a ∧ isDigitCh b ∧ isDigitCh c ∧ isDigitCh d then
      some (((dval a * 10 + dval b) * 10 + dval c) * 10 + dval d, r)
    else none
  | _ => none

/-- Expect one literal character. -/
def expectC (ch : Char) : List Char → Option (List Char)
  | c :: r => if c = ch then some r else none
  | _ => none

/-- Pattern `%Y sep %m sep %d` matching the whole input
(formats `%Y-%m-%d` and `%Y/%m/%d`). -/
def patY_M_D (sep : Char) (cs : List Char) : Option (Nat × Nat × Nat) :=
  (read4 cs).bind (fun yr =>
    (expectC sep yr.2).bind (fun r2 =>
      tryAlts (fun m r3 =>
        (expectC sep r3).bind (fun r4 =>
          tryAlts (fun d r5 => if r5 = [] then some (yr.1, m, d) else none)
            (dayAlts r4))) (monthAlts r2)))

/-- Pattern `%m sep %d sep %Y` matching the whole input
(formats `%m/%d/%Y` and `%m-%d-%Y`). -/
def patM_D_Y (sep : Char) (cs : List Char) : Option (Nat × Nat × Nat) :=
  tryAlts (fun m r1 =>
    (expectC sep r1).bind (fun r2 =>
      tryAlts (fun d r3 =>
        (expectC sep r3).bind (fun r4 =>
          (read4 r4).bind (fun yr =>
            if yr.2 = [] then some (yr.1, m, d) else none)))
        (dayAlts r2))) (monthAlts cs)

/-- One `datetime.strptime(s, fmt)` attempt: regex match of the whole
string, then the `datetime` constructor's range checks. -/
def runFormat (p : List Char → Option (Nat × Nat × Nat)) (cs : List Char) :
    Option (Nat × Nat × Nat) :=
  (p cs).bind (fun t => if ctorOK t.1 t.2.1 t.2.2 then some t else none)

/-- `datetime.strptime(s, '%Y-%m-%d')`, the single format used by the
reconciliation comparisons. -/
def strptimeYMD (s : String) : Option (Nat × Nat × Nat) :=
  runFormat (patY_M_D '-') s.toList

/-- The four formats tried in order by `_norm_effective_date`:
`%Y-%m-%d`, `%m/%d/%Y`, `%Y/%m/%d`, `%m-%d-%Y`. -/
def strptimeFormats (cs : List Char) : Option (Nat × Nat × Nat) :=
  (runFormat (patY_M_D '-') cs).orElse (fun _ =>
    (runFormat (patM_D_Y '/') cs).orElse (fun _ =>
      (runFormat (patY_M_D '/') cs).orElse (fun _ =>
        runFormat (patM_D_Y '-') cs)))

/-- Serial day number of a proleptic Gregorian date (days since
0000-03-01); Python `date` comparison and `timedelta` arithmetic
correspond to `Nat` comparison and `+`/`-` on this number. -/
def toSerial (y m d : Nat) : Nat :=
  let yAdj := if m ≤ 2 then y - 1 else y
  let era := yAdj / 400
  let yoe := yAdj - era * 400
  let mp := if m ≤ 2 then m + 9 else m - 3
  let doy := (153 * mp + 2) / 5 + (d - 1)
  let doe := yoe * 365 + yoe / 4 - yoe / 100 + doy
  era * 146097 + doe

/-- `datetime.strptime(s, '%Y-%m-%d').date()` as a serial day number. -/
def parseDateSerial (s : String) : Option Nat :=
  (strptimeYMD s).map (fun t => toSerial t.1 t.2.1 t.2.2)

/-- `date.weekday() < 5` (Monday=0 … Friday=4), the market-day test of
`helper_functions.next_market_day`. -/
def isWeekday (n : Nat) : Bool := (n + 2) % 7 < 5

/-- One iteration bundle of `next_market_day`'s `while` loop: step one
calendar day in the given direction until a weekday is hit.  At most
three steps are ever needed; the fuel `7` is strictly more. -/
def seekWeekday (previous : Bool) : Nat → Nat → Nat
  | 0, n => n
  | fuel + 1, n =>
    let m := if previous then n - 1 else n + 1
    if isWeekday m then m else seekWeekday previous fuel m

/-- `helper_functions.next_market_day(date, previous, days)` on serial day
numbers: move `days` market days forward (or backward). -/
def next_market_day (previous : Bool) (days : Nat) (date : Nat) : Nat :=
  match days with
  | 0 => date
  | k + 1 => next_market_day previous k (seekWeekday previous 7 date)

/-! ## Data model: split records and the previously-sent ledger -/

/-- A split record as passed around by the program (a Python dict).  A
missing optional key behaves exactly like the empty value under every
access the program performs (`get` with falsy test), so absence is
modelled by the default. -/
structure SplitRec where
  symbol : String := ""
  company : String := ""
  ratio : String := ""
  source : String := ""
  effective_date : String := "unknown"
  fractional : String := ""
  article_link : List String := []
  deriving DecidableEq, Repr

/-- A ledger entry of `logs/previously_sent_db.json` in the current
schema: `{data, first_sent, last_seen}` (`reverse_split_checker.py`).
`first_sent`/`last_seen` are `Option` so that `dict.setdefault` is
representable. -/
structure LedgerEntry where
  data : SplitRec
  first_sent : Option String := none
  last_seen : Option String := none
  deriving DecidableEq, Repr

/-- The ledger: a Python dict keyed by identity key, i.e. an
insertion-ordered association list with unique keys. -/
abbrev DB : Type := List (String × LedgerEntry)

/-- Dict lookup `db.get(k)`. -/
def dbFind (db : DB) (k : String) : Option LedgerEntry :=
  (db.find? (fun p => p.1 = k)).map (fun p => p.2)

/-- Dict assignment to an existing key: replace the value in place. -/
def dbReplace (db : DB) (k : String) (v : LedgerEntry) : DB :=
  db.map (fun p => if p.1 = k then (k, v) else p)

/-- Dict `pop(k)`: remove the binding of `k`. -/
def dbErase (db : DB) (k : String) : DB :=
  db.filter (fun p => ¬(p.1 = k))

/-- Dict assignment `db[k] = v` for a `k` not currently bound: append. -/
def dbAppend (db : DB) (k : String) (v : LedgerEntry) : DB :=
  db ++ [(k, v)]

/-- Dict assignment `db[k] = v` in general. -/
def dbSet (db : DB) (k : String) (v : LedgerEntry) : DB :=
  if (dbFind db k).isSome then dbReplace db k v else dbAppend db k v

/-! ## Identity-key normalisation (`reverse_split_checker.py`) -/

/-- `_norm_symbol`: `(sym or '').strip().upper()`. -/
def norm_symbol (sym : String) : String := pyUpper (pyStrip sym)

/-- The unknown-date sentinels of `_norm_effective_date`. -/
def sentinelDates : List String :=
  ["unknown", "n/a", "na", "tbd", "pending", "-", "—", "none"]

/-- `strftime('%Y-%m-%d')` of a parsed date: the canonical
zero-padded `YYYY-MM-DD` rendering. -/
def pad2 (n : Nat) : List Char :=
  if n < 10 then ['0', digitCh n] else [digitCh (n / 10), digitCh (n % 10)]

/-- Four-digit year rendering of `strftime('%Y-...')`. -/
def pad4 (n : Nat) : List Char :=
  [digitCh (n / 1000), digitCh (n / 100 % 10), digitCh (n / 10 % 10),
   digitCh (n % 10)]

/-- The `YYYY-MM-DD` string produced by
`datetime.strftime('%Y-%m-%d')` for a valid parsed date. -/
def fmtYMD (y m d : Nat) : String :=
  String.mk (pad4 y ++ '-' :: (pad2 m ++ '-' :: pad2 d))

/-- `_norm_effective_date`: map unknown spellings to `"unknown"`, parse
the four known formats and re-emit as `YYYY-MM-DD`, and otherwise fall
back to the stripped string when it already looks like `YYYY-MM-DD`
(length 10 with a hyphen at index 4), else `"unknown"`. -/
def norm_effective_date (ed : String) : String :=
  if ed = "" then "unknown"
  else
    let s := pyStrip ed
    if s = "" then "unknown"
    else
      let low := pyLower s
      if low ∈ sentinelDates then "unknown"
      else
        match strptimeFormats s.toList with
        | some (y, m, d) => fmtYMD y m d
        | none =>
          if s.length = 10 ∧ s.toList.get? 4 = some '-' then s else "unknown"

/-- `_split_key`: normalised symbol and effective date joined by `"|"`. -/
def split_key (s : SplitRec) : String :=
  norm_symbol s.symbol ++ "|" ++ norm_effective_date s.effective_date

/-! ## Reconciliation against the ledger (`main` in
`reverse_split_checker.py`, lines 405–486) -/

/-- `is_still_buyable` (closure in `main`): unknown dates and dates on or
after the next market day count as buyable; a date that fails to parse
falls into the `except` branch and also counts as buyable.  `today` is
the serial number of `next_market_day()`. -/
def is_still_buyable (today : Nat) (s : SplitRec) : Bool :=
  if pyLower s.effective_date = "unknown" then true
  else
    match parseDateSerial s.effective_date with
    | some d => today ≤ d
    | none => true

/-- The insufficient-fractional test used by the merge-upgrade step of
`main` (line 466): note it does not list "not enough information". -/
def isInsufficientMerge (frac : String) : Bool :=
  pyLower (pyStrip frac) ∈
    ["check rounding policy", "unknown", "not specified", "unspecified", ""]

/-- Merging fresh scraped fields into stored data (lines 449–463): update
`company`/`ratio`/`source` when truthy and union the `article_link`s. -/
def mergeFields (s : SplitRec) (d0 : SplitRec) : SplitRec :=
  let d1 := if s.company ≠ "" then { d0 with company := s.company } else d0
  let d2 := if s.ratio ≠ "" then { d1 with ratio := s.ratio } else d1
  let d3 := if s.source ≠ "" then { d2 with source := s.source } else d2
  if s.article_link ≠ [] then
    { d3 with article_link := (d3.article_link ++ s.article_link).eraseDups }
  else d3

/-- Merging fresh scraped fields into stored data (lines 449–473): the
field merge above, then upgrade `fractional` when the stored value is
insufficient and the scraped one is truthy and not insufficient. -/
def mergeFresh (s : SplitRec) (d0 : SplitRec) : SplitRec :=
  let d4 := mergeFields s d0
  if s.fractional ≠ "" ∧ isInsufficientMerge d4.fractional = true ∧
      isInsufficientMerge s.fractional = false then
    { d4 with fractional := s.fractional }
  else d4

/-- The in-run reconciliation state: the ledger plus the two output
lists being accumulated by the candidate loop. -/
structure CoreState where
  db : DB
  prev : List SplitRec
  news : List SplitRec
  deriving DecidableEq, Repr

/-- The `if rec:` branch of the loop (lines 445–484): merge fresh fields
into the stored data, surface it in `prev_splits` when still buyable, and
`setdefault` the `last_seen` stamp (which therefore only changes when it
was absent). -/
def mergeExisting (today : Nat) (now : String) (st : CoreState)
    (key : String) (rec : LedgerEntry) (s : SplitRec) : CoreState :=
  let data1 := mergeFresh s rec.data
  let rec1 : LedgerEntry := { rec with data := data1 }
  let prev1 := if is_still_buyable today data1 then st.prev ++ [data1] else st.prev
  let rec2 : LedgerEntry := { rec1 with last_seen := some (rec1.last_seen.getD now) }
  { st with db := dbReplace st.db key rec2, prev := prev1 }

/-- The migration scan (lines 431–435): the first ledger key for this
symbol that carries a known date. -/
def findKnownEntry (db : DB) (symN : String) : Option (String × LedgerEntry) :=
  db.find? (fun p =>
    strStartsWith p.1 (symN ++ "|") ∧ ¬(strEndsWith p.1 "|unknown"))

/-- Process one candidate record against the ledger (loop body of
lines 420–486, without the `seen_keys` skip): lookup by identity key;
on a miss, attempt a key migration for the same symbol (unknown date to
known date or vice versa) and then merge; on a hit, merge; otherwise the
candidate is genuinely new. -/
def processOne (today : Nat) (now : String) (st : CoreState)
    (s : SplitRec) : CoreState :=
  let key := split_key s
  match dbFind st.db key with
  | some rec => mergeExisting today now st key rec s
  | none =>
    let symN := norm_symbol s.symbol
    let edN := norm_effective_date s.effective_date
    let unknownKey := symN ++ "|unknown"
    let mig : Option (String × LedgerEntry) :=
      if edN ≠ "unknown" then
        match dbFind st.db unknownKey with
        | some r => some (unknownKey, r)
        | none => none
      else findKnownEntry st.db symN
    match mig with
    | some (oldKey, r) =>
      let rMig : LedgerEntry :=
        { data := { r.data with effective_date := edN },
          first_sent := r.first_sent, last_seen := some now }
      let db1 := dbAppend (dbErase st.db oldKey) key rMig
      mergeExisting today now { st with db := db1 } key rMig s
    | none => { st with news := st.news ++ [s] }

/-- The loop state including `seen_keys`. -/
structure LoopState where
  core : CoreState
  seen : List String

/-- The full loop body (lines 415–486): skip candidates whose identity
key was already seen this run, else record the key and process. -/
def processCandidate (today : Nat) (now : String) (st : LoopState)
    (s : SplitRec) : LoopState :=
  if split_key s ∈ st.seen then st
  else ⟨processOne today now st.core s, split_key s :: st.seen⟩

/-- Run the candidate loop over the merged scrape plus pre-checked
records, starting from the loaded ledger. -/
def runCandidates (today : Nat) (now : String) (db : DB)
    (cands : List SplitRec) : CoreState :=
  (cands.foldl (processCandidate today now) ⟨⟨db, [], []⟩, []⟩).core

/-- The candidate subsequence actually processed: the first occurrence of
every identity key, in candidate order. -/
def keptCandidates (seen : List String) : List SplitRec → List SplitRec
  | [] => []
  | s :: rest =>
    if split_key s ∈ seen then keptCandidates seen rest
    else s :: keptCandidates (split_key s :: seen) rest

/-! ## Ledger pruning and write-back (`main`, lines 522–544) -/

/-- Keep test of the pruning pass: parse failures fall into the `except`
branch and are kept; parsed dates are kept from the cutoff on. -/
def pruneKeep (prevWeek : Nat) (e : LedgerEntry) : Bool :=
  match parseDateSerial e.data.effective_date with
  | some d => pyLower e.data.effective_date = "unknown" ∨ prevWeek ≤ d
  | none => true

/-- The pruning pass over the ledger. -/
def pruneDb (prevWeek : Nat) (db : DB) : DB :=
  db.filter (fun p => pruneKeep prevWeek p.2)

/-- Insertion of this run's new records (lines 537–544): every new split
is written under its identity key with `first_sent = last_seen = now`. -/
def insertNew (now : String) (db : DB) (l : List SplitRec) : DB :=
  l.foldl (fun db s =>
    dbSet db (split_key s) { data := s, first_sent := some now, last_seen := some now }) db

/-! ## Cross-source merge (`get_reverse_splits`, lines 136–163) -/

/-- Sort key of one symbol group; `None` models the `ValueError` raised
by `datetime.strptime` on an unknown or unparsable date. -/
def mergeDateKey (r : SplitRec) : Option Nat := parseDateSerial r.effective_date

/-- Serial date of a record, defaulting to 0; only used on records whose
date is known to parse. -/
def serialOf (r : SplitRec) : Nat := (mergeDateKey r).getD 0

/-- Collapse one symbol group: sort by effective date descending (Python
`sorted(..., reverse=True)` is a stable sort, and raises as soon as one
sort key fails to parse), take the most recent as the representative, and
attach the union of the group's article links to it. -/
def mergeGroup (g : List SplitRec) : Except String SplitRec :=
  if g.all (fun x => (mergeDateKey x).isSome) then
    let sortedG := g.mergeSort (fun a b => serialOf b ≤ serialOf a)
    match sortedG with
    | [] => Except.error "empty group"
    | latest :: _ =>
      let allLinks := sortedG.foldl (fun acc x => acc ++ x.article_link) []
      Except.ok
        (if allLinks ≠ [] then { latest with article_link := allLinks.eraseDups }
         else latest)
  else Except.error "ValueError: effective_date does not match %Y-%m-%d"

/-! ## Resolver result classification (`check_roundup.py`, lines 226–238)
and notification categorisation (`send_discord_msg.py`, lines 111–136) -/

/-- The recognised resolver answers. -/
def recognisedResults : List String :=
  ["THRESHOLD_ROUND_UP", "ROUND_UP", "CASH_IN_LIEU", "ROUND_DOWN"]

/-- Mapping from the resolver's final result to the stored `fractional`
value; anything unrecognised (including failures and timeouts, which
leave the initial `"OTHER/NOT_ENOUGH_INFO"`) becomes
`"Not enough information"`. -/
def resolveFractional (result : String) : String :=
  if result = "THRESHOLD_ROUND_UP" then
    "Rounded up if fractional shares exceed a certain threshold"
  else if result = "ROUND_UP" then "Rounded up to nearest whole share"
  else if result = "CASH_IN_LIEU" then "Cash payment for fractional shares"
  else if result = "ROUND_DOWN" then "Rounded down to nearest whole share"
  else "Not enough information"

/-- The sections of the Discord message builder. -/
inductive MsgCategory where
  | skipped
  | buyOneShare
  | buyThreshold
  | checkRounding
  deriving DecidableEq, Repr

/-- Categorisation of one split in `format_discord_message`: decided
non-actionable outcomes are skipped, round-up goes to the buy section,
threshold round-up to the threshold buy section, everything else to the
non-actionable "check rounding" section. -/
def categorize (split : SplitRec) : MsgCategory :=
  let fractional := pyLower split.fractional
  if fractional = "cash payment for fractional shares" ∨
      fractional = "rounded down to nearest whole share" then .skipped
  else if fractional = "rounded up to nearest whole share" then .buyOneShare
  else if fractional = "rounded up if fractional shares exceed a certain threshold" then
    .buyThreshold
  else .checkRounding

/-! ## Output priority (`helper_functions.sort_key`) and the final sort of
`check_roundup` (line 307) -/

/-- `sort_key`: priority by case-insensitive substring containment,
tested in this order. -/
def sort_key (split : SplitRec) : Nat :=
  let val := pyLower split.fractional
  if strContains val "rounded up to nearest whole share" then 0
  else if strContains val "rounded up if fractional shares exceed a certain threshold" then 1
  else if strContains val "cash payment for fractional shares" ∨
      strContains val "rounded down to nearest whole share" then 2
  else if strContains val "not specified" then 4
  else 3

/-- `splits.sort(key=sort_key)`: Python's stable sort by priority. -/
def checkRoundupSort (l : List SplitRec) : List SplitRec :=
  l.mergeSort (fun a b => sort_key a ≤ sort_key b)

deriving instance DecidableEq for Except

/-! ## Concrete inputs used by witnesses and counterexamples -/

/-- The split record stored in `exEntryFull`. -/
def exDataFull : SplitRec where
  symbol := "AAPL"
  company := "Apple Inc"
  ratio := "10->1"
  source := "HedgeFollow"
  effective_date := "2025-12-01"
  fractional := "Rounded up to nearest whole share"
  article_link := ["http://a.example"]

/-- A ledger entry with complete, sufficient fields (witness input). -/
def exEntryFull : LedgerEntry where
  data := exDataFull
  first_sent := some "2025-01-02 09:00:00"
  last_seen := some "2025-01-02 09:00:00"

/-- A ledger entry under an unknown-date key (migration input). -/
def exEntryUnknown : LedgerEntry where
  data := { symbol := "AAPL", effective_date := "unknown", fractional := "Not specified" }
  first_sent := some "2025-01-02 09:00:00"
  last_seen := some "2025-01-02 09:00:00"

/-- A stored entry whose fractional value reads "Not enough information". -/
def exEntryNoInfo : LedgerEntry where
  data := { symbol := "QQQ", effective_date := "2025-12-01", ratio := "10->1", fractional := "Not enough information" }
  first_sent := some "2025-01-02 09:00:00"
  last_seen := some "2025-01-02 09:00:00"

/-- A stored entry for the same symbol as two colliding candidates. -/
def exEntryZZZ : LedgerEntry where
  data := { symbol := "ZZZ", effective_date := "unknown", fractional := "Not specified" }
  first_sent := some "2025-01-02 09:00:00"
  last_seen := some "2025-01-02 09:00:00"

/-- First candidate of the double-touch run: unknown date, fresh ratio. -/
def exCandUnknown : SplitRec :=
  { symbol := "ZZZ", effective_date := "unknown", ratio := "10->1" }

/-- Second candidate of the double-touch run: the same symbol with a
known date. -/
def exCandDated : SplitRec :=
  { symbol := "ZZZ", effective_date := "2025-06-02" }

/-- An incoming record with a firm date for the symbol stored under an
unknown-date key (migration witness input). -/
def exCandAAPL : SplitRec :=
  { symbol := "AAPL", effective_date := "2025-03-10", ratio := "10->1" }

/-- A fresh candidate carrying a decided fractional value for the symbol
stored with "Not enough information". -/
def exCandQQQ : SplitRec where
  symbol := "QQQ"
  effective_date := "2025-12-01"
  fractional := "Rounded up to nearest whole share"

/-- A fresh candidate carrying a decided fractional value for the symbol
stored with "Not specified". -/
def exCandZZZFrac : SplitRec where
  symbol := "ZZZ"
  effective_date := "unknown"
  fractional := "Rounded up to nearest whole share"

/-- The `ZZZ|unknown` entry after the first candidate merged its ratio. -/
def exEntryZZZMerged : LedgerEntry where
  data := { symbol := "ZZZ", ratio := "10->1", effective_date := "unknown", fractional := "Not specified" }
  first_sent := some "2025-01-02 09:00:00"
  last_seen := some "2025-01-02 09:00:00"

/-- The same underlying entry after the second candidate migrated it to
the dated key. -/
def exEntryZZZMigrated : LedgerEntry where
  data := { symbol := "ZZZ", ratio := "10->1", effective_date := "2025-06-02", fractional := "Not specified" }
  first_sent := some "2025-01-02 09:00:00"
  last_seen := some "2025-06-02 08:00:00"

/-- A fractional value that is none of the six canonical values but
contains the round-up phrase as a substring. -/
def exRecOddFrac : SplitRec where
  fractional := "definitely rounded up to nearest whole share"

/-- A candidate identical in key to the stored `ZZZ|unknown` entry and
carrying no new fields. -/
def exCandZZZPlain : SplitRec where
  symbol := "ZZZ"
  effective_date := "unknown"

/-- Scraped record of the merge group dated 2025-06-02. -/
def exMergeA : SplitRec where
  symbol := "ABC"
  effective_date := "2025-06-02"
  article_link := ["http://u2.example"]

/-- Scraped record of the merge group dated 2025-06-03. -/
def exMergeB : SplitRec where
  symbol := "ABC"
  effective_date := "2025-06-03"
  article_link := ["http://u3.example"]

/-- Scraped record of the merge group with an unknown effective date. -/
def exMergeUnknown : SplitRec where
  symbol := "ABC"
  effective_date := "unknown"
  article_link := ["http://u1.example"]

/-- A record whose effective date is the unparsable marker "TBD". -/
def exRecTBD : SplitRec :=
  { symbol := "TTT", effective_date := "TBD" }

/-- A ledger entry whose stored effective date is unparsable ("TBD"). -/
def exEntryTBD : LedgerEntry where
  data := exRecTBD
  first_sent := some "2025-01-02 09:00:00"
  last_seen := some "2025-01-02 09:00:00"

/-! ## Helper lemmas: digits, parser round-trip, strip idempotence -/

lemma dval_digitCh {n : Nat} (h : n ≤ 9) : dval (digitCh n) = n := by
  interval_cases n <;> decide

lemma isDigitCh_digitCh {n : Nat} (h : n ≤ 9) : isDigitCh (digitCh n) = true := by
  interval_cases n <;> decide

lemma not_space_digitCh {n : Nat} (h : n ≤ 9) : isPySpace (digitCh n) = false := by
  interval_cases n <;> decide

lemma read4_pad4 {y : Nat} (h : y ≤ 9999) (r : List Char) :
    read4 (pad4 y ++ r) = some (y, r) := by
  have h1 : y / 1000 ≤ 9 := by omega
  have h2 : y / 100 % 10 ≤ 9 := by omega
  have h3 : y / 10 % 10 ≤ 9 := by omega
  have h4 : y % 10 ≤ 9 := by omega
  show read4 (digitCh (y / 1000) :: digitCh (y / 100 % 10) :: digitCh (y / 10 % 10) ::
      digitCh (y % 10) :: r) = some (y, r)
  rw [read4, if_pos (by simp [isDigitCh_digitCh, h1, h2, h3, h4])]
  rw [dval_digitCh h1, dval_digitCh h2, dval_digitCh h3, dval_digitCh h4]
  congr 2
  omega

lemma monthAlts_pad2 {m : Nat} (h1 : 1 ≤ m) (h2 : m ≤ 12) (r : List Char) :
    ∃ tail, monthAlts (pad2 m ++ r) = (m, r) :: tail := by
  interval_cases m <;> exact ⟨_, rfl⟩

lemma dayAlts_pad2 {d : Nat} (h1 : 1 ≤ d) (h2 : d ≤ 31) (r : List Char) :
    ∃ tail, dayAlts (pad2 d ++ r) = (d, r) :: tail := by
  interval_cases d <;> exact ⟨_, rfl⟩

lemma tryAlts_cons_some {α : Type} {k : Nat → List Char → Option α} {v : Nat}
    {r : List Char} {tail : List (Nat × List Char)} {a : α} (h : k v r = some a) :
    tryAlts k ((v, r) :: tail) = some a := by
  simp [tryAlts, h]

lemma fmtYMD_toList (y m d : Nat) :
    (fmtYMD y m d).toList = pad4 y ++ '-' :: (pad2 m ++ '-' :: pad2 d) := rfl

lemma patY_M_D_fmt {y m d : Nat} (hy : y ≤ 9999) (hm1 : 1 ≤ m) (hm2 : m ≤ 12)
    (hd1 : 1 ≤ d) (hd2 : d ≤ 31) :
    patY_M_D '-' ((fmtYMD y m d).toList) = some (y, m, d) := by
  obtain ⟨tailM, hM⟩ := monthAlts_pad2 hm1 hm2 ('-' :: pad2 d)
  obtain ⟨tailD, hD⟩ := dayAlts_pad2 hd1 hd2 ([] : List Char)
  have hD' : dayAlts (pad2 d) = (d, []) :: tailD := by simpa using hD
  rw [fmtYMD_toList, patY_M_D, read4_pad4 hy]
  rw [Option.some_bind]
  rw [show expectC '-' ('-' :: (pad2 m ++ '-' :: pad2 d)) =
      some (pad2 m ++ '-' :: pad2 d) from rfl]
  rw [Option.some_bind, hM]
  apply tryAlts_cons_some
  rw [show expectC '-' ('-' :: pad2 d) = some (pad2 d) from rfl]
  rw [Option.some_bind, hD']
  apply tryAlts_cons_some
  simp

lemma ctorOK_bounds {y m d : Nat} (h : ctorOK y m d = true) :
    1 ≤ y ∧ y ≤ 9999 ∧ 1 ≤ m ∧ m ≤ 12 ∧ 1 ≤ d ∧ d ≤ 31 := by
  simp only [ctorOK, decide_eq_true_eq] at h
  have : daysInMonth y m ≤ 31 := by
    unfold daysInMonth
    split
    · split <;> omega
    · split <;> omega
  omega

lemma strptimeFormats_fmt {y m d : Nat} (h : ctorOK y m d = true) :
    strptimeFormats ((fmtYMD y m d).toList) = some (y, m, d) := by
  obtain ⟨hy1, hy2, hm1, hm2, hd1, hd2⟩ := ctorOK_bounds h
  have hpat : patY_M_D '-' ((fmtYMD y m d).data) = some (y, m, d) :=
    patY_M_D_fmt hy2 hm1 hm2 hd1 hd2
  simp [strptimeFormats, runFormat, String.toList, hpat, h]

lemma ctorOK_of_runFormat {p : List Char → Option (Nat × Nat × Nat)} {cs : List Char}
    {y m d : Nat} (h : runFormat p cs = some (y, m, d)) : ctorOK y m d = true := by
  unfold runFormat at h
  rw [Option.bind_eq_some] at h
  obtain ⟨t, _, ht⟩ := h
  by_cases hc : ctorOK t.1 t.2.1 t.2.2 = true
  · rw [if_pos hc] at ht
    cases ht
    exact hc
  · rw [if_neg hc] at ht
    exact absurd ht (by simp)

lemma orElse_of_none {α : Type} (f : Unit → Option α) :
    Option.orElse none f = f () := rfl

lemma orElse_of_some {α : Type} (a : α) (f : Unit → Option α) :
    Option.orElse (some a) f = some a := rfl

lemma ctorOK_of_strptimeFormats {cs : List Char} {y m d : Nat}
    (h : strptimeFormats cs = some (y, m, d)) : ctorOK y m d = true := by
  unfold strptimeFormats at h
  rcases h1 : runFormat (patY_M_D '-') cs with _ | t1
  · rw [h1, orElse_of_none] at h
    rcases h2 : runFormat (patM_D_Y '/') cs with _ | t2
    · rw [h2, orElse_of_none] at h
      rcases h3 : runFormat (patY_M_D '/') cs with _ | t3
      · rw [h3, orElse_of_none] at h
        exact ctorOK_of_runFormat h
      · rw [h3, orElse_of_some] at h
        cases h
        exact ctorOK_of_runFormat h3
    · rw [h2, orElse_of_some] at h
      cases h
      exact ctorOK_of_runFormat h2
  · rw [h1, orElse_of_some] at h
    cases h
    exact ctorOK_of_runFormat h1

lemma dropWhile_idem (p : Char → Bool) (l : List Char) :
    (l.dropWhile p).dropWhile p = l.dropWhile p := by
  induction l with
  | nil => rfl
  | cons c t ih =>
    by_cases hc : p c = true
    · simp [List.dropWhile_cons, hc, ih]
    · simp [List.dropWhile_cons, hc]

lemma head_dropWhile_false {p : Char → Bool} {l : List Char} {c : Char}
    (h : (l.dropWhile p).head? = some c) : p c = false := by
  induction l with
  | nil => simp [List.dropWhile] at h
  | cons a t ih =>
    by_cases ha : p a = true
    · rw [List.dropWhile_cons, if_pos ha] at h
      exact ih h
    · rw [List.dropWhile_cons, if_neg ha] at h
      simp at h
      subst h
      simpa using ha

lemma dropWhile_of_head_false {p : Char → Bool} {l : List Char}
    (h : ∀ c, l.head? = some c → p c = false) : l.dropWhile p = l := by
  cases l with
  | nil => rfl
  | cons a t =>
    rw [List.dropWhile_cons, if_neg]
    simp [h a rfl]

lemma getLast_dropWhile {p : Char → Bool} {l : List Char}
    (h : l.dropWhile p ≠ []) : (l.dropWhile p).getLast? = l.getLast? := by
  induction l with
  | nil => simp [List.dropWhile] at h
  | cons a t ih =>
    by_cases ha : p a = true
    · rw [List.dropWhile_cons, if_pos ha] at h ⊢
      rw [ih h]
      cases t with
      | nil => simp [List.dropWhile] at h
      | cons b u => rw [List.getLast?_cons_cons]
    · rw [List.dropWhile_cons, if_neg ha]

lemma stripList_idem (l : List Char) : stripList (stripList l) = stripList l := by
  unfold stripList
  set A := l.dropWhile isPySpace with hA
  set B := A.reverse.dropWhile isPySpace with hB
  rcases hBe : B with _ | ⟨b, Bt⟩
  · simp [hBe]
  · rw [← hBe]
    have hBne : B ≠ [] := by rw [hBe]; simp
    have hheadB : ∀ c, B.head? = some c → isPySpace c = false := by
      intro c hc
      exact head_dropWhile_false (hB ▸ hc)
    have hlastB : B.getLast? = A.reverse.getLast? := getLast_dropWhile (hB ▸ hBne)
    have hAne : A ≠ [] := by
      intro he
      rw [hB, he] at hBne
      simp [List.dropWhile] at hBne
    have hheadA : ∀ c, A.head? = some c → isPySpace c = false := by
      intro c hc
      exact head_dropWhile_false (hA ▸ hc)
    have h1 : B.reverse.dropWhile isPySpace = B.reverse := by
      apply dropWhile_of_head_false
      intro c hc
      rw [List.head?_reverse, hlastB, List.getLast?_reverse] at hc
      exact hheadA c hc
    rw [h1, List.reverse_reverse]
    have h2 : B.dropWhile isPySpace = B := by
      apply dropWhile_of_head_false
      exact hheadB
    rw [h2]

lemma pyStrip_idem (s : String) : pyStrip (pyStrip s) = pyStrip s := by
  unfold pyStrip
  rw [show (String.mk (stripList s.toList)).toList = stripList s.toList from rfl]
  rw [stripList_idem]

lemma stripList_of_no_space {l : List Char}
    (h : ∀ c ∈ l, isPySpace c = false) : stripList l = l := by
  unfold stripList
  have h1 : l.dropWhile isPySpace = l := by
    apply dropWhile_of_head_false
    intro c hc
    cases l with
    | nil => simp at hc
    | cons a t =>
      rw [List.head?_cons] at hc
      cases hc
      exact h _ (List.mem_cons_self _ _)
  rw [h1]
  have h2 : l.reverse.dropWhile isPySpace = l.reverse := by
    apply dropWhile_of_head_false
    intro c hc
    rw [List.head?_reverse] at hc
    apply h
    have hx : c ∈ l.getLast? := by rw [hc]; rfl
    obtain ⟨hne, hEq⟩ := List.mem_getLast?_eq_getLast hx
    rw [hEq]
    exact List.getLast_mem hne
  rw [h2, List.reverse_reverse]

lemma pyLower_toList (s : String) : (pyLower s).toList = s.toList.map Char.toLower := rfl

lemma not_sentinel_of_len10 {s : String} (h : s.toList.length = 10) :
    pyLower s ∉ sentinelDates := by
  intro hmem
  have hl : (pyLower s).toList.length = 10 := by
    rw [pyLower_toList, List.length_map]
    exact h
  simp only [sentinelDates, List.mem_cons, List.not_mem_nil, or_false] at hmem
  rcases hmem with h' | h' | h' | h' | h' | h' | h' | h' <;>
    rw [h'] at hl <;> exact absurd hl (by decide)

lemma pad2_length (n : Nat) : (pad2 n).length = 2 := by
  unfold pad2
  split <;> rfl

lemma pad2_no_space {n : Nat} (h : n ≤ 99) : ∀ c ∈ pad2 n, isPySpace c = false := by
  intro c hc
  unfold pad2 at hc
  split at hc <;>
    simp only [List.mem_cons, List.not_mem_nil, or_false] at hc
  · rcases hc with rfl | rfl
    · decide
    · exact not_space_digitCh (by omega)
  · rcases hc with rfl | rfl
    · exact not_space_digitCh (by omega)
    · exact not_space_digitCh (by omega)

lemma pad4_no_space {n : Nat} (h : n ≤ 9999) : ∀ c ∈ pad4 n, isPySpace c = false := by
  intro c hc
  unfold pad4 at hc
  simp only [List.mem_cons, List.not_mem_nil, or_false] at hc
  rcases hc with rfl | rfl | rfl | rfl <;> exact not_space_digitCh (by omega)

lemma fmtYMD_no_space {y m d : Nat} (hy : y ≤ 9999) (hm : m ≤ 99) (hd : d ≤ 99) :
    ∀ c ∈ (fmtYMD y m d).toList, isPySpace c = false := by
  intro c hc
  rw [fmtYMD_toList] at hc
  simp only [List.mem_append, List.mem_cons] at hc
  rcases hc with hc | rfl | hc | rfl | hc
  · exact pad4_no_space hy c hc
  · decide
  · exact pad2_no_space hm c hc
  · decide
  · exact pad2_no_space hd c hc

lemma pyStrip_fmtYMD {y m d : Nat} (hy : y ≤ 9999) (hm : m ≤ 99) (hd : d ≤ 99) :
    pyStrip (fmtYMD y m d) = fmtYMD y m d := by
  unfold pyStrip
  rw [stripList_of_no_space (fmtYMD_no_space hy hm hd)]
  rfl

lemma fmtYMD_toList_length {y m d : Nat} :
    (fmtYMD y m d).toList.length = 10 := by
  rw [fmtYMD_toList]
  simp [pad2_length, pad4]

lemma fmtYMD_ne_empty {y m d : Nat} : fmtYMD y m d ≠ "" := by
  intro h
  have h10 : (fmtYMD y m d).toList.length = 10 := fmtYMD_toList_length
  rw [h] at h10
  exact absurd h10 (by decide)

lemma norm_of_strip_empty {x : String} (hx : x ≠ "") (hs : pyStrip x = "") :
    norm_effective_date x = "unknown" := by
  unfold norm_effective_date
  rw [if_neg hx]
  simp only [hs]
  rfl

lemma norm_of_sentinel {x : String} (hx : x ≠ "") (hs : pyStrip x ≠ "")
    (hl : pyLower (pyStrip x) ∈ sentinelDates) :
    norm_effective_date x = "unknown" := by
  unfold norm_effective_date
  rw [if_neg hx]
  simp only []
  rw [if_neg hs, if_pos hl]

lemma norm_of_parse {x : String} {y m d : Nat} (hx : x ≠ "") (hs : pyStrip x ≠ "")
    (hl : pyLower (pyStrip x) ∉ sentinelDates)
    (hp : strptimeFormats (pyStrip x).toList = some (y, m, d)) :
    norm_effective_date x = fmtYMD y m d := by
  unfold norm_effective_date
  rw [if_neg hx]
  simp only []
  rw [if_neg hs, if_neg hl, hp]

lemma norm_of_fallback_true {x : String} (hx : x ≠ "") (hs : pyStrip x ≠ "")
    (hl : pyLower (pyStrip x) ∉ sentinelDates)
    (hp : strptimeFormats (pyStrip x).toList = none)
    (hf : (pyStrip x).length = 10 ∧ (pyStrip x).toList.get? 4 = some '-') :
    norm_effective_date x = pyStrip x := by
  unfold norm_effective_date
  rw [if_neg hx]
  simp only []
  rw [if_neg hs, if_neg hl, hp]
  simp only [if_pos hf]

lemma norm_of_fallback_false {x : String} (hx : x ≠ "") (hs : pyStrip x ≠ "")
    (hl : pyLower (pyStrip x) ∉ sentinelDates)
    (hp : strptimeFormats (pyStrip x).toList = none)
    (hf : ¬((pyStrip x).length = 10 ∧ (pyStrip x).toList.get? 4 = some '-')) :
    norm_effective_date x = "unknown" := by
  unfold norm_effective_date
  rw [if_neg hx]
  simp only []
  rw [if_neg hs, if_neg hl, hp]
  simp only [if_neg hf]

lemma norm_unknown : norm_effective_date "unknown" = "unknown" := by decide

/-- C7: for every input string, `normalize_effective_date` is idempotent:
normalising an already-normalised value (a canonical `YYYY-MM-DD` date, the
`"unknown"` sentinel, or the fallback copy of an unparsable
date-looking string) returns the same value. -/
theorem claim_C7_norm_effective_date_idempotent (x : String) :
    norm_effective_date (norm_effective_date x) = norm_effective_date x := by
  by_cases hx : x = ""
  · rw [hx]
    decide
  · by_cases hs : pyStrip x = ""
    · rw [norm_of_strip_empty hx hs, norm_unknown]
    · by_cases hl : pyLower (pyStrip x) ∈ sentinelDates
      · rw [norm_of_sentinel hx hs hl, norm_unknown]
      · rcases hp : strptimeFormats (pyStrip x).toList with _ | ⟨y, m, d⟩
        · by_cases hf : (pyStrip x).length = 10 ∧ (pyStrip x).toList.get? 4 = some '-'
          · rw [norm_of_fallback_true hx hs hl hp hf]
            have hidem : pyStrip (pyStrip x) = pyStrip x := pyStrip_idem x
            have hs2 : pyStrip (pyStrip x) ≠ "" := by rw [hidem]; exact hs
            have hl2 : pyLower (pyStrip (pyStrip x)) ∉ sentinelDates := by
              rw [hidem]; exact hl
            have hp2 : strptimeFormats (pyStrip (pyStrip x)).toList = none := by
              rw [hidem]; exact hp
            have hf2 : (pyStrip (pyStrip x)).length = 10 ∧
                (pyStrip (pyStrip x)).toList.get? 4 = some '-' := by
              rw [hidem]; exact hf
            rw [norm_of_fallback_true hs hs2 hl2 hp2 hf2, hidem]
          · rw [norm_of_fallback_false hx hs hl hp hf, norm_unknown]
        · rw [norm_of_parse hx hs hl hp]
          have hc := ctorOK_of_strptimeFormats hp
          obtain ⟨hy1, hy2, hm1, hm2, hd1, hd2⟩ := ctorOK_bounds hc
          have hstrip : pyStrip (fmtYMD y m d) = fmtYMD y m d :=
            pyStrip_fmtYMD hy2 (by omega) (by omega)
          have hs2 : pyStrip (fmtYMD y m d) ≠ "" := by
            rw [hstrip]; exact fmtYMD_ne_empty
          have hl2 : pyLower (pyStrip (fmtYMD y m d)) ∉ sentinelDates := by
            rw [hstrip]
            exact not_sentinel_of_len10 fmtYMD_toList_length
          have hp2 : strptimeFormats (pyStrip (fmtYMD y m d)).toList = some (y, m, d) := by
            rw [hstrip]
            exact strptimeFormats_fmt hc
          rw [norm_of_parse fmtYMD_ne_empty hs2 hl2 hp2]

/-! ## Helper lemmas: the ledger dictionary and the merge step -/

lemma dbFind_eq_none_iff {db : DB} {k : String} :
    dbFind db k = none ↔ ∀ p ∈ db, p.1 ≠ k := by
  unfold dbFind
  rw [Option.map_eq_none', List.find?_eq_none]
  constructor
  · intro h p hp
    have := h p hp
    simpa using this
  · intro h p hp
    simpa using h p hp

lemma dbFind_erase_self (db : DB) (k : String) : dbFind (dbErase db k) k = none := by
  rw [dbFind_eq_none_iff]
  intro p hp
  unfold dbErase at hp
  have := List.of_mem_filter hp
  simpa using this

lemma dbFind_append (db1 db2 : DB) (k : String) :
    dbFind (db1 ++ db2) k =
      Option.orElse (dbFind db1 k) (fun _ => dbFind db2 k) := by
  unfold dbFind
  rw [List.find?_append]
  cases List.find? (fun p => p.1 = k) db1 with
  | none => simp [orElse_of_none]
  | some p => simp [orElse_of_some]

lemma dbFind_replace_self {db : DB} {k : String} (v : LedgerEntry)
    (h : (dbFind db k).isSome = true) : dbFind (dbReplace db k v) k = some v := by
  unfold dbFind at h
  unfold dbFind dbReplace
  induction db with
  | nil => simp at h
  | cons p t ih =>
    by_cases hp : p.1 = k
    · rw [List.map_cons, if_pos hp]
      rw [List.find?_cons_of_pos _ (by simp)]
      rfl
    · rw [List.map_cons, if_neg hp]
      rw [List.find?_cons_of_neg _ (by simpa using hp)] at h ⊢
      exact ih h

lemma dbFind_replace_ne {db : DB} {k k' : String} (v : LedgerEntry)
    (h : k' ≠ k) : dbFind (dbReplace db k v) k' = dbFind db k' := by
  unfold dbFind dbReplace
  induction db with
  | nil => rfl
  | cons p t ih =>
    by_cases hp : p.1 = k
    · rw [List.map_cons, if_pos hp]
      rw [List.find?_cons_of_neg _ (by simpa using h.symm)]
      rw [List.find?_cons_of_neg _ (by rw [hp]; simpa using h.symm)]
      exact ih
    · rw [List.map_cons, if_neg hp]
      cases hq : decide (p.1 = k') with
      | true =>
        have : p.1 = k' := of_decide_eq_true hq
        rw [List.find?_cons_of_pos _ (by simpa using this),
          List.find?_cons_of_pos _ (by simpa using this)]
      | false =>
        have : ¬(p.1 = k') := of_decide_eq_false hq
        rw [List.find?_cons_of_neg _ (by simpa using this),
          List.find?_cons_of_neg _ (by simpa using this)]
        exact ih

lemma dbFind_erase_ne {db : DB} {k k' : String} (h : k' ≠ k) :
    dbFind (dbErase db k) k' = dbFind db k' := by
  unfold dbFind dbErase
  induction db with
  | nil => rfl
  | cons p t ih =>
    by_cases hp : p.1 = k
    · rw [List.filter_cons_of_neg (by simpa using hp)]
      rw [List.find?_cons_of_neg _ (by rw [hp]; simpa using h.symm)]
      exact ih
    · rw [List.filter_cons_of_pos (by simpa using hp)]
      cases hq : decide (p.1 = k') with
      | true =>
        have : p.1 = k' := of_decide_eq_true hq
        rw [List.find?_cons_of_pos _ (by simpa using this),
          List.find?_cons_of_pos _ (by simpa using this)]
      | false =>
        have : ¬(p.1 = k') := of_decide_eq_false hq
        rw [List.find?_cons_of_neg _ (by simpa using this),
          List.find?_cons_of_neg _ (by simpa using this)]
        exact ih

lemma dbFind_set_self (db : DB) (k : String) (v : LedgerEntry) :
    dbFind (dbSet db k v) k = some v := by
  unfold dbSet
  by_cases h : (dbFind db k).isSome = true
  · rw [if_pos h]
    exact dbFind_replace_self v h
  · rw [if_neg h]
    unfold dbAppend
    rw [dbFind_append]
    have hn : dbFind db k = none := by
      cases hc : dbFind db k with
      | none => rfl
      | some v' => rw [hc] at h; simp at h
    rw [hn, orElse_of_none]
    unfold dbFind
    simp

lemma dbFind_set_ne {db : DB} {k k' : String} (v : LedgerEntry) (h : k' ≠ k) :
    dbFind (dbSet db k v) k' = dbFind db k' := by
  unfold dbSet
  by_cases hp : (dbFind db k).isSome = true
  · rw [if_pos hp]
    exact dbFind_replace_ne v h
  · rw [if_neg hp]
    unfold dbAppend
    rw [dbFind_append]
    cases hc : dbFind db k' with
    | some v' => rw [orElse_of_some]
    | none =>
      rw [orElse_of_none]
      unfold dbFind
      rw [List.find?_cons_of_neg _ (by simpa using h.symm)]
      simp

lemma mergeFields_effective_date (s d0 : SplitRec) :
    (mergeFields s d0).effective_date = d0.effective_date := by
  unfold mergeFields
  dsimp only
  split <;> split <;> split <;> split <;> rfl

lemma mergeFields_fractional (s d0 : SplitRec) :
    (mergeFields s d0).fractional = d0.fractional := by
  unfold mergeFields
  dsimp only
  split <;> split <;> split <;> split <;> rfl

lemma mergeFields_symbol (s d0 : SplitRec) :
    (mergeFields s d0).symbol = d0.symbol := by
  unfold mergeFields
  dsimp only
  split <;> split <;> split <;> split <;> rfl

lemma mergeFresh_effective_date (s d0 : SplitRec) :
    (mergeFresh s d0).effective_date = d0.effective_date := by
  unfold mergeFresh
  dsimp only
  split
  · exact mergeFields_effective_date s d0
  · exact mergeFields_effective_date s d0

lemma mergeFresh_fractional_upgrade {s d0 : SplitRec}
    (h1 : isInsufficientMerge d0.fractional = true)
    (h2 : isInsufficientMerge s.fractional = false) :
    (mergeFresh s d0).fractional = s.fractional := by
  have hne : s.fractional ≠ "" := by
    intro he
    rw [he] at h2
    exact absurd h2 (by decide)
  unfold mergeFresh
  dsimp only
  rw [if_pos ⟨hne, by rw [mergeFields_fractional]; exact h1, h2⟩]

lemma dbFind_singleton (k : String) (v : LedgerEntry) : dbFind [(k, v)] k = some v := by
  unfold dbFind
  simp

lemma dbFind_singleton_ne {k k' : String} (v : LedgerEntry) (h : k' ≠ k) :
    dbFind [(k, v)] k' = none := by
  unfold dbFind
  rw [List.find?_cons_of_neg _ (by simpa using h.symm)]
  rfl

lemma str_append_right_inj {a b c : String} (h : a ++ b = a ++ c) : b = c := by
  have hd := congrArg String.data h
  rw [String.data_append, String.data_append] at hd
  have hbc := List.append_cancel_left hd
  cases b
  cases c
  exact congrArg String.mk hbc

lemma mergeExisting_db (today : Nat) (now : String) (st : CoreState) (key : String)
    (rec : LedgerEntry) (s : SplitRec) :
    (mergeExisting today now st key rec s).db =
      dbReplace st.db key
        { data := mergeFresh s rec.data, first_sent := rec.first_sent,
          last_seen := some (rec.last_seen.getD now) } := rfl

lemma processOne_found {today : Nat} {now : String} {st : CoreState} {s : SplitRec}
    {rec : LedgerEntry} (h : dbFind st.db (split_key s) = some rec) :
    processOne today now st s = mergeExisting today now st (split_key s) rec s := by
  simp only [processOne, h]

lemma processOne_migrate_known {today : Nat} {now : String} {st : CoreState}
    {s : SplitRec} {r : LedgerEntry}
    (hmiss : dbFind st.db (split_key s) = none)
    (hknown : norm_effective_date s.effective_date ≠ "unknown")
    (hu : dbFind st.db (norm_symbol s.symbol ++ "|unknown") = some r) :
    processOne today now st s =
      mergeExisting today now
        { st with db := (dbAppend (dbErase st.db (norm_symbol s.symbol ++ "|unknown"))
            (split_key s)
            ⟨{ r.data with effective_date := norm_effective_date s.effective_date },
              r.first_sent, some now⟩) }
        (split_key s)
        ⟨{ r.data with effective_date := norm_effective_date s.effective_date },
          r.first_sent, some now⟩ s := by
  simp only [processOne, hmiss, ne_eq, hknown, not_false_eq_true, if_true, hu]

lemma processOne_new_of_no_match {today : Nat} {now : String} {st : CoreState}
    {s : SplitRec}
    (hmiss : dbFind st.db (split_key s) = none)
    (hknown : norm_effective_date s.effective_date ≠ "unknown")
    (hnone : dbFind st.db (norm_symbol s.symbol ++ "|unknown") = none) :
    processOne today now st s = { st with news := st.news ++ [s] } := by
  simp only [processOne, hmiss, ne_eq, hknown, not_false_eq_true, if_true, hnone]

lemma filter_key_length_replace (db : DB) (k : String) (v : LedgerEntry) :
    ((dbReplace db k v).filter (fun p => p.1 = k)).length =
      (db.filter (fun p => p.1 = k)).length := by
  induction db with
  | nil => rfl
  | cons p t ih =>
    unfold dbReplace at ih ⊢
    by_cases hp : p.1 = k
    · rw [List.map_cons, if_pos hp]
      rw [List.filter_cons_of_pos (by simp), List.filter_cons_of_pos (by simpa using hp)]
      simp only [List.length_cons]
      rw [ih]
    · rw [List.map_cons, if_neg hp]
      rw [List.filter_cons_of_neg (by simpa using hp),
        List.filter_cons_of_neg (by simpa using hp)]
      exact ih

/-! ## Claim theorems -/

/-- C1: if the ledger holds an entry under `S|unknown` and nothing under
the incoming record's full key `S|D` (with `S` the record's normalised
symbol and `D` its known normalised date), reconciling the record removes
the `S|unknown` entry and leaves exactly one entry under `S|D`, whose
data carries `effective_date = D` and whose `first_sent` is preserved
from the original entry. -/
theorem claim_C1_migration_rekeys_entry (st : CoreState)
    (s : SplitRec) (e : LedgerEntry) (S D : String) (today : Nat) (now : String)
    (hS : norm_symbol s.symbol = S) (hD : norm_effective_date s.effective_date = D)
    (hDk : D ≠ "unknown")
    (hu : dbFind st.db (S ++ "|unknown") = some e)
    (hk : dbFind st.db (S ++ "|" ++ D) = none) :
    ∃ e', dbFind (processOne today now st s).db (S ++ "|" ++ D) = some e' ∧
      e'.data.effective_date = D ∧
      e'.first_sent = e.first_sent ∧
      dbFind (processOne today now st s).db (S ++ "|unknown") = none ∧
      ((processOne today now st s).db.filter
        (fun p => p.1 = S ++ "|" ++ D)).length = 1 := by
  have hkey : split_key s = S ++ "|" ++ D := by
    unfold split_key
    rw [hS, hD]
  have hcat : ("|" ++ "unknown" : String) = "|unknown" := by decide
  have hSU : S ++ "|" ++ D ≠ S ++ "|unknown" := by
    rw [← hcat, ← String.append_assoc]
    intro h
    exact hDk (str_append_right_inj h)
  have hmiss : dbFind st.db (split_key s) = none := by
    rw [hkey]
    exact hk
  have hknown : norm_effective_date s.effective_date ≠ "unknown" := by
    rw [hD]
    exact hDk
  have hu' : dbFind st.db (norm_symbol s.symbol ++ "|unknown") = some e := by
    rw [hS]
    exact hu
  have hdb : (processOne today now st s).db =
      dbReplace (dbAppend (dbErase st.db (S ++ "|unknown")) (S ++ "|" ++ D)
        ⟨{ e.data with effective_date := D }, e.first_sent, some now⟩)
        (S ++ "|" ++ D)
        ⟨mergeFresh s { e.data with effective_date := D }, e.first_sent, some now⟩ := by
    rw [processOne_migrate_known hmiss hknown hu', mergeExisting_db, hkey, hS, hD]
    rfl
  have hpres : dbFind (dbAppend (dbErase st.db (S ++ "|unknown")) (S ++ "|" ++ D)
      ⟨{ e.data with effective_date := D }, e.first_sent, some now⟩) (S ++ "|" ++ D) =
      some ⟨{ e.data with effective_date := D }, e.first_sent, some now⟩ := by
    unfold dbAppend
    rw [dbFind_append, dbFind_erase_ne hSU, hk, orElse_of_none, dbFind_singleton]
  refine ⟨⟨mergeFresh s { e.data with effective_date := D }, e.first_sent, some now⟩,
    ?_, ?_, ?_, ?_, ?_⟩
  · rw [hdb]
    exact dbFind_replace_self _ (by rw [hpres]; rfl)
  · show (mergeFresh s { e.data with effective_date := D }).effective_date = D
    rw [mergeFresh_effective_date]
  · rfl
  · rw [hdb, dbFind_replace_ne _ (Ne.symm hSU)]
    unfold dbAppend
    rw [dbFind_append, dbFind_erase_self, orElse_of_none]
    exact dbFind_singleton_ne _ (Ne.symm hSU)
  · rw [hdb, filter_key_length_replace]
    unfold dbAppend
    rw [List.filter_append]
    have h0 : (dbErase st.db (S ++ "|unknown")).filter
        (fun p => p.1 = S ++ "|" ++ D) = [] := by
      rw [List.filter_eq_nil_iff]
      intro p hp
      have hpdb : p ∈ st.db := List.mem_of_mem_filter hp
      have := dbFind_eq_none_iff.mp hk p hpdb
      simpa using this
    rw [h0]
    rw [List.filter_cons_of_pos (by simp)]
    rfl

/-- C1 witness: the migration theorem applied to a concrete ledger
holding `AAPL|unknown` and an incoming `AAPL` record dated 2025-03-10. -/
theorem claim_C1_migration_rekeys_entry_witness :
    ∃ e', dbFind (processOne 739687 "2025-06-02 08:00:00"
        ⟨[("AAPL|unknown", exEntryUnknown)], [], []⟩ exCandAAPL).db
        ("AAPL" ++ "|" ++ "2025-03-10") = some e' ∧
      e'.data.effective_date = "2025-03-10" ∧
      e'.first_sent = exEntryUnknown.first_sent ∧
      dbFind (processOne 739687 "2025-06-02 08:00:00"
        ⟨[("AAPL|unknown", exEntryUnknown)], [], []⟩ exCandAAPL).db
        ("AAPL" ++ "|unknown") = none ∧
      ((processOne 739687 "2025-06-02 08:00:00"
        ⟨[("AAPL|unknown", exEntryUnknown)], [], []⟩ exCandAAPL).db.filter
        (fun p => p.1 = "AAPL" ++ "|" ++ "2025-03-10")).length = 1 :=
  claim_C1_migration_rekeys_entry ⟨[("AAPL|unknown", exEntryUnknown)], [], []⟩
    exCandAAPL exEntryUnknown "AAPL" "2025-03-10" 739687 "2025-06-02 08:00:00"
    (by decide) (by decide) (by decide) (by decide) (by decide)

/-- C2 (code bug): reconciling an incoming record identical to a stored
entry that has a known ratio, a known effective date, and a sufficient
fractional value leaves the ledger entry entirely unchanged — including
`last_seen`: the merge path only applies `setdefault('last_seen', now)`,
so an existing stamp is NOT refreshed to the current run's timestamp,
contrary to the claim. -/
theorem claim_C2_last_seen_not_refreshed :
    processOne 739687 "2025-06-02 08:00:00"
        ⟨[("AAPL|2025-12-01", exEntryFull)], [], []⟩ exDataFull =
      ⟨[("AAPL|2025-12-01", exEntryFull)], [exDataFull], []⟩ ∧
    exEntryFull.last_seen = some "2025-01-02 09:00:00" ∧
    ("2025-01-02 09:00:00" : String) ≠ "2025-06-02 08:00:00" ∧
    isInsufficientMerge exDataFull.fractional = false ∧
    pyLower (pyStrip exDataFull.ratio) ≠ "unknown" ∧
    pyLower (pyStrip exDataFull.effective_date) ≠ "unknown" := by
  decide

/-- C5 counterexample: a stored fractional value "Not enough information"
is in the claim's six-element insufficient set, and the fresh record
carries a value outside that set, yet reconciliation does NOT upgrade the
stored value — the merge step's insufficient set omits
"not enough information". -/
theorem claim_C5_counterexample_no_upgrade_from_not_enough_info :
    pyLower (pyStrip exEntryNoInfo.data.fractional) = "not enough information" ∧
    isInsufficientMerge exCandQQQ.fractional = false ∧
    (processOne 739687 "2025-06-02 08:00:00"
        ⟨[("QQQ|2025-12-01", exEntryNoInfo)], [], []⟩ exCandQQQ).db =
      [("QQQ|2025-12-01", exEntryNoInfo)] ∧
    exEntryNoInfo.data.fractional ≠ exCandQQQ.fractional := by
  decide

/-- C5 (amended): for every ledger entry whose stored fractional value is
in the merge step's five-element insufficient set (which omits
"not enough information"), if the fresh record for the same key carries a
value outside that set, reconciliation upgrades the stored fractional
value to the fresh one. -/
theorem claim_C5_fractional_upgrade (today : Nat) (now : String) (st : CoreState)
    (s : SplitRec) (rec : LedgerEntry)
    (h1 : dbFind st.db (split_key s) = some rec)
    (h2 : isInsufficientMerge rec.data.fractional = true)
    (h3 : isInsufficientMerge s.fractional = false) :
    ∃ e', dbFind (processOne today now st s).db (split_key s) = some e' ∧
      e'.data.fractional = s.fractional := by
  rw [processOne_found h1, mergeExisting_db]
  refine ⟨⟨mergeFresh s rec.data, rec.first_sent, some (rec.last_seen.getD now)⟩, ?_, ?_⟩
  · exact dbFind_replace_self _ (by rw [h1]; rfl)
  · show (mergeFresh s rec.data).fractional = s.fractional
    exact mergeFresh_fractional_upgrade h2 h3

/-- C5 witness: the upgrade theorem applied to a stored "Not specified"
entry and a fresh record that decided "Rounded up to nearest whole share". -/
theorem claim_C5_fractional_upgrade_witness :
    ∃ e', dbFind (processOne 739687 "2025-06-02 08:00:00"
        ⟨[("ZZZ|unknown", exEntryZZZ)], [], []⟩ exCandZZZFrac).db
        (split_key exCandZZZFrac) = some e' ∧
      e'.data.fractional = exCandZZZFrac.fractional :=
  claim_C5_fractional_upgrade 739687 "2025-06-02 08:00:00"
    ⟨[("ZZZ|unknown", exEntryZZZ)], [], []⟩ exCandZZZFrac exEntryZZZ
    (by decide) (by decide) (by decide)

lemma dbFind_set_isSome_preserved {db : DB} {k k2 : String} (v : LedgerEntry)
    (h : (dbFind db k).isSome = true) :
    (dbFind (dbSet db k2 v) k).isSome = true := by
  by_cases he : k = k2
  · subst he
    rw [dbFind_set_self]
    rfl
  · rw [dbFind_set_ne v he]
    exact h

lemma insertNew_isSome_preserved {now : String} {k : String} :
    ∀ (l : List SplitRec) (db : DB), (dbFind db k).isSome = true →
      (dbFind (insertNew now db l) k).isSome = true := by
  intro l
  induction l with
  | nil => intro db h; exact h
  | cons a t ih =>
    intro db h
    exact ih _ (dbFind_set_isSome_preserved _ h)

lemma insertNew_mem_isSome {now : String} :
    ∀ (l : List SplitRec) (db : DB) (s : SplitRec), s ∈ l →
      (dbFind (insertNew now db l) (split_key s)).isSome = true := by
  intro l
  induction l with
  | nil => intro db s h; simp at h
  | cons a t ih =>
    intro db s h
    rcases List.mem_cons.mp h with rfl | h2
    · exact insertNew_isSome_preserved t _ (by rw [dbFind_set_self]; rfl)
    · exact ih _ s h2

/-- C8: when the fractional-handling resolver yields no recognised answer
(failure, timeout, or any result outside the four recognised phrases),
the record's fractional value is set to "Not enough information" rather
than left empty; such a record, like every new record, is still inserted
into the ledger under its identity key; and it lands in the
"check rounding" section of the notification, not in either of the
actionable buy categories. -/
theorem claim_C8_resolver_failure_handling (result now : String) (db : DB)
    (l : List SplitRec) (s : SplitRec)
    (hres : result ∉ recognisedResults)
    (hs : s.fractional = resolveFractional result)
    (hmem : s ∈ l) :
    s.fractional = "Not enough information" ∧
    s.fractional ≠ "" ∧
    (dbFind (insertNew now db l) (split_key s)).isSome = true ∧
    categorize s = MsgCategory.checkRounding ∧
    categorize s ≠ MsgCategory.buyOneShare ∧
    categorize s ≠ MsgCategory.buyThreshold := by
  simp only [recognisedResults, List.mem_cons, List.not_mem_nil, or_false, not_or] at hres
  obtain ⟨h1, h2, h3, h4⟩ := hres
  have hval : resolveFractional result = "Not enough information" := by
    unfold resolveFractional
    rw [if_neg h1, if_neg h2, if_neg h3, if_neg h4]
  rw [hval] at hs
  have hcat : categorize s = MsgCategory.checkRounding := by
    unfold categorize
    rw [hs]
    decide
  refine ⟨hs, by rw [hs]; decide, insertNew_mem_isSome l db s hmem, hcat, ?_, ?_⟩
  · rw [hcat]
    decide
  · rw [hcat]
    decide

/-- C8 witness: the theorem applied to the result string "NO_INFO" and a
one-record list inserted into an empty ledger. -/
theorem claim_C8_resolver_failure_handling_witness :
    ({ fractional := resolveFractional "NO_INFO" } : SplitRec).fractional =
        "Not enough information" ∧
    ({ fractional := resolveFractional "NO_INFO" } : SplitRec).fractional ≠ "" ∧
    (dbFind (insertNew "2025-06-02 08:00:00" []
        [{ fractional := resolveFractional "NO_INFO" }])
      (split_key ({ fractional := resolveFractional "NO_INFO" } : SplitRec))).isSome = true ∧
    categorize { fractional := resolveFractional "NO_INFO" } = MsgCategory.checkRounding ∧
    categorize { fractional := resolveFractional "NO_INFO" } ≠ MsgCategory.buyOneShare ∧
    categorize { fractional := resolveFractional "NO_INFO" } ≠ MsgCategory.buyThreshold :=
  claim_C8_resolver_failure_handling "NO_INFO" "2025-06-02 08:00:00" []
    [{ fractional := resolveFractional "NO_INFO" }]
    { fractional := resolveFractional "NO_INFO" }
    (by decide) (by decide) (by decide)

/-- C9 counterexample: `sort_key` tests substring containment, not
equality: a fractional value that is none of the five listed canonical
values (so the claim maps it to 3) but merely contains the round-up
phrase is mapped to priority 0. -/
theorem claim_C9_counterexample_substring_priority :
    sort_key exRecOddFrac = 0 ∧ (0 : Nat) ≠ 3 ∧
    pyLower exRecOddFrac.fractional ≠ "rounded up to nearest whole share" ∧
    pyLower exRecOddFrac.fractional ≠
      "rounded up if fractional shares exceed a certain threshold" ∧
    pyLower exRecOddFrac.fractional ≠ "cash payment for fractional shares" ∧
    pyLower exRecOddFrac.fractional ≠ "rounded down to nearest whole share" ∧
    pyLower exRecOddFrac.fractional ≠ "not specified" := by
  decide

/-- C9 (amended): the priority function maps fractional values by
case-insensitive substring containment, tested in order (round-up 0,
threshold round-up 1, cash payment / round-down 2, "not specified" 4,
otherwise 3) — so on the six canonical values it yields 0, 1, 2, 2, 4 and
3 respectively — and the resolver's final sort returns a permutation of
its input that is non-decreasing in this priority. -/
theorem claim_C9_priority_and_sorting :
    (∀ l : List SplitRec,
      List.Pairwise (fun a b => sort_key a ≤ sort_key b) (checkRoundupSort l) ∧
      (checkRoundupSort l).Perm l) ∧
    sort_key { fractional := "Rounded up to nearest whole share" } = 0 ∧
    sort_key { fractional := "Rounded up if fractional shares exceed a certain threshold" } = 1 ∧
    sort_key { fractional := "Cash payment for fractional shares" } = 2 ∧
    sort_key { fractional := "Rounded down to nearest whole share" } = 2 ∧
    sort_key { fractional := "Not specified" } = 4 ∧
    sort_key { fractional := "Not enough information" } = 3 := by
  refine ⟨?_, by decide, by decide, by decide, by decide, by decide, by decide⟩
  intro l
  constructor
  · have hp := @List.sorted_mergeSort SplitRec
      (fun a b => sort_key a ≤ sort_key b)
      (by
        intro a b c h1 h2
        simp only [decide_eq_true_eq] at h1 h2 ⊢
        omega)
      (by
        intro a b
        simp [Nat.le_total])
      l
    unfold checkRoundupSort
    exact hp.imp (fun h => by simpa using h)
  · exact List.mergeSort_perm l _

lemma processCandidate_seen {today : Nat} {now : String} {st : LoopState}
    {s : SplitRec} (h : split_key s ∈ st.seen) :
    processCandidate today now st s = st := by
  unfold processCandidate
  rw [if_pos h]

lemma processCandidate_not_seen {today : Nat} {now : String} {st : LoopState}
    {s : SplitRec} (h : split_key s ∉ st.seen) :
    processCandidate today now st s =
      ⟨processOne today now st.core s, split_key s :: st.seen⟩ := by
  unfold processCandidate
  rw [if_neg h]

lemma foldl_processCandidate_core (today : Nat) (now : String) :
    ∀ (l : List SplitRec) (st : LoopState),
      (l.foldl (processCandidate today now) st).core =
        (keptCandidates st.seen l).foldl (processOne today now) st.core := by
  intro l
  induction l with
  | nil => intro st; rfl
  | cons s t ih =>
    intro st
    by_cases h : split_key s ∈ st.seen
    · rw [List.foldl_cons, processCandidate_seen h, keptCandidates, if_pos h]
      exact ih st
    · rw [List.foldl_cons, processCandidate_not_seen h, keptCandidates, if_neg h,
        List.foldl_cons]
      exact ih ⟨processOne today now st.core s, split_key s :: st.seen⟩

lemma keptCandidates_nodup_aux :
    ∀ (l : List SplitRec) (seen : List String),
      ((keptCandidates seen l).map split_key).Nodup ∧
        ∀ k ∈ (keptCandidates seen l).map split_key, k ∉ seen := by
  intro l
  induction l with
  | nil =>
    intro seen
    exact ⟨List.nodup_nil, by simp [keptCandidates]⟩
  | cons s t ih =>
    intro seen
    by_cases h : split_key s ∈ seen
    · rw [keptCandidates, if_pos h]
      exact ih seen
    · rw [keptCandidates, if_neg h]
      obtain ⟨ih1, ih2⟩ := ih (split_key s :: seen)
      constructor
      · rw [List.map_cons, List.nodup_cons]
        refine ⟨fun hmem => (ih2 _ hmem) (List.mem_cons_self _ _), ih1⟩
      · intro k hk
        rw [List.map_cons] at hk
        rcases List.mem_cons.mp hk with rfl | hk2
        · exact h
        · exact fun hkseen => (ih2 k hk2) (List.mem_cons_of_mem _ hkseen)

lemma keptCandidates_sublist :
    ∀ (l : List SplitRec) (seen : List String), (keptCandidates seen l).Sublist l := by
  intro l
  induction l with
  | nil => intro seen; exact List.Sublist.refl _
  | cons s t ih =>
    intro seen
    by_cases h : split_key s ∈ seen
    · rw [keptCandidates, if_pos h]
      exact (ih seen).cons s
    · rw [keptCandidates, if_neg h]
      exact (ih (split_key s :: seen)).cons₂ s

/-- C10 (amended): within one run, each identity key is reconciled at
most once: the candidate loop is equivalent to running the per-candidate
reconciliation over only the first occurrence of every identity key (a
subsequence of the candidates whose keys are pairwise distinct); every
later candidate with an already-seen key is skipped.  (The further
reading of the claim, that each ledger entry is touched by at most one
candidate, fails: see the counterexample.) -/
theorem claim_C10_first_per_key_processed (today : Nat) (now : String) (db : DB)
    (cands : List SplitRec) :
    runCandidates today now db cands =
      (keptCandidates [] cands).foldl (processOne today now) ⟨db, [], []⟩ ∧
    ((keptCandidates [] cands).map split_key).Nodup ∧
    (keptCandidates [] cands).Sublist cands := by
  refine ⟨?_, (keptCandidates_nodup_aux cands []).1, keptCandidates_sublist cands []⟩
  unfold runCandidates
  exact foldl_processCandidate_core today now cands ⟨⟨db, [], []⟩, []⟩

/-- C10 counterexample: two candidates for the same symbol but with
different identity keys (`ZZZ|unknown` and `ZZZ|2025-06-02`) are both
processed, and the SAME ledger entry is touched by both of them: the
first candidate merges its ratio into the entry stored under
`ZZZ|unknown`, and the second candidate then pops that very entry and
migrates it to `ZZZ|2025-06-02` — so a ledger entry is not looked up,
migrated, or merged by at most one candidate per run. -/
theorem claim_C10_counterexample_entry_touched_twice :
    split_key exCandUnknown ≠ split_key exCandDated ∧
    dbFind (runCandidates 739687 "2025-06-02 08:00:00"
      [("ZZZ|unknown", exEntryZZZ)] [exCandUnknown]).db "ZZZ|unknown" =
      some exEntryZZZMerged ∧
    exEntryZZZMerged.data.ratio = exCandUnknown.ratio ∧
    dbFind (runCandidates 739687 "2025-06-02 08:00:00"
      [("ZZZ|unknown", exEntryZZZ)] [exCandUnknown, exCandDated]).db "ZZZ|unknown" =
      none ∧
    dbFind (runCandidates 739687 "2025-06-02 08:00:00"
      [("ZZZ|unknown", exEntryZZZ)] [exCandUnknown, exCandDated]).db "ZZZ|2025-06-02" =
      some exEntryZZZMigrated ∧
    exEntryZZZMigrated.data.ratio = exCandUnknown.ratio ∧
    exEntryZZZMigrated.first_sent = exEntryZZZ.first_sent := by
  decide

lemma digit_bounds {c : Char} (h : isDigitCh c = true) :
    48 ≤ c.toNat ∧ c.toNat ≤ 57 := by
  unfold isDigitCh at h
  rw [decide_eq_true_eq] at h
  obtain ⟨h1, h2⟩ := h
  rw [Char.le_def, UInt32.le_def, BitVec.le_def] at h1 h2
  exact ⟨h1, h2⟩

lemma toLower_digit {c : Char} (h : isDigitCh c = true) : Char.toLower c = c := by
  obtain ⟨h1, h2⟩ := digit_bounds h
  unfold Char.toLower
  rw [if_neg]
  intro hcon
  omega

lemma read4_head_digit {cs : List Char} {t : Nat × List Char}
    (h : read4 cs = some t) : ∃ c r, cs = c :: r ∧ isDigitCh c = true := by
  match cs with
  | [] => exact absurd h (by simp [read4])
  | [a] => exact absurd h (by simp [read4])
  | [a, b] => exact absurd h (by simp [read4])
  | [a, b, c] => exact absurd h (by simp [read4])
  | a :: b :: c :: d :: r =>
    refine ⟨a, _, rfl, ?_⟩
    simp only [read4] at h
    split_ifs at h with hcond
    exact hcond.1

lemma strptimeYMD_head_digit {s : String} {t : Nat × Nat × Nat}
    (h : strptimeYMD s = some t) :
    ∃ c r, s.toList = c :: r ∧ isDigitCh c = true := by
  unfold strptimeYMD runFormat at h
  rw [Option.bind_eq_some] at h
  obtain ⟨u, hu, _⟩ := h
  unfold patY_M_D at hu
  rw [Option.bind_eq_some] at hu
  obtain ⟨yr, hyr, _⟩ := hu
  exact read4_head_digit hyr

lemma parse_lower_ne_unknown {s : String} {d : Nat}
    (h : parseDateSerial s = some d) : pyLower s ≠ "unknown" := by
  unfold parseDateSerial at h
  rw [Option.map_eq_some'] at h
  obtain ⟨t, ht, _⟩ := h
  obtain ⟨c, r, hcs, hdig⟩ := strptimeYMD_head_digit ht
  intro hlow
  have hdata : (pyLower s).toList = "unknown".toList := congrArg String.toList hlow
  rw [pyLower_toList, hcs, List.map_cons] at hdata
  have hhead : Char.toLower c = 'u' := by
    have := congrArg List.head? hdata
    simpa using this
  rw [toLower_digit hdig] at hhead
  subst hhead
  exact absurd hdig (by decide)

lemma pruneKeep_iff (cutoff : Nat) (e : LedgerEntry) :
    pruneKeep cutoff e = true ↔
      (parseDateSerial e.data.effective_date = none ∨
        ∃ d, parseDateSerial e.data.effective_date = some d ∧ cutoff ≤ d) := by
  unfold pruneKeep
  cases hp : parseDateSerial e.data.effective_date with
  | none => simp
  | some d =>
    have hne := parse_lower_ne_unknown hp
    simp only [decide_eq_true_eq]
    constructor
    · intro h
      rcases h with h1 | h2
      · exact absurd h1 hne
      · exact Or.inr ⟨d, rfl, h2⟩
    · rintro (hc | ⟨d', hd', hle⟩)
      · exact absurd hc (by simp)
      · cases hd'
        exact Or.inr hle

/-- C4 counterexample: a ledger entry whose stored effective date is the
unparsable, non-"unknown" string "TBD" is retained by the pruning pass
(the parse failure lands in the `except` branch, which keeps the entry),
although the claim's characterisation would prune it. -/
theorem claim_C4_counterexample_unparsable_retained :
    pruneDb (next_market_day true 5 739709) [("TTT|TBD", exEntryTBD)] =
      [("TTT|TBD", exEntryTBD)] ∧
    parseDateSerial exEntryTBD.data.effective_date = none ∧
    pyLower exEntryTBD.data.effective_date ≠ "unknown" := by
  decide

/-- C4 (amended): after reconciliation the ledger retains exactly those
entries whose effective date fails to parse as `YYYY-MM-DD` (including
the `"unknown"` sentinel and any other unparsable string) or parses to a
date on or after the fifth market day before today; in particular an
entry dated exactly at the cutoff is retained and one dated the day
before it is pruned. -/
theorem claim_C4_prune_retention (db : DB) (today : Nat) (k : String)
    (e : LedgerEntry) :
    (k, e) ∈ pruneDb (next_market_day true 5 today) db ↔
      ((k, e) ∈ db ∧
        (parseDateSerial e.data.effective_date = none ∨
          ∃ d, parseDateSerial e.data.effective_date = some d ∧
            next_market_day true 5 today ≤ d)) := by
  unfold pruneDb
  rw [List.mem_filter]
  rw [pruneKeep_iff]

lemma mergeExisting_prev_mem {today : Nat} {now : String} {st : CoreState}
    {key : String} {rec : LedgerEntry} {s x : SplitRec}
    (hx : x ∈ (mergeExisting today now st key rec s).prev) :
    x ∈ st.prev ∨ is_still_buyable today x = true := by
  unfold mergeExisting at hx
  dsimp only at hx
  by_cases hb : is_still_buyable today (mergeFresh s rec.data) = true
  · rw [if_pos hb] at hx
    rcases List.mem_append.mp hx with h | h
    · exact Or.inl h
    · right
      have : x = mergeFresh s rec.data := by simpa using h
      rw [this]
      exact hb
  · rw [if_neg hb] at hx
    exact Or.inl hx

lemma processOne_prev_mem {today : Nat} {now : String} {st : CoreState}
    {s x : SplitRec} (hx : x ∈ (processOne today now st s).prev) :
    x ∈ st.prev ∨ is_still_buyable today x = true := by
  unfold processOne at hx
  dsimp only at hx
  split at hx
  · exact mergeExisting_prev_mem hx
  · split at hx
    · have h := mergeExisting_prev_mem hx
      exact h
    · exact Or.inl hx

lemma prev_sound_aux (today : Nat) (now : String) :
    ∀ (l : List SplitRec) (st : LoopState),
      (∀ x ∈ st.core.prev, is_still_buyable today x = true) →
      ∀ x ∈ (l.foldl (processCandidate today now) st).core.prev,
        is_still_buyable today x = true := by
  intro l
  induction l with
  | nil => intro st h; exact h
  | cons s t ih =>
    intro st h
    rw [List.foldl_cons]
    apply ih
    intro x hx
    by_cases hseen : split_key s ∈ st.seen
    · rw [processCandidate_seen hseen] at hx
      exact h x hx
    · rw [processCandidate_not_seen hseen] at hx
      rcases processOne_prev_mem hx with h1 | h2
      · exact h x h1
      · exact h2

/-- C6 (amended): the still-buyable classification holds exactly when the
effective date lowers to "unknown", or fails to parse as `YYYY-MM-DD`
(the `except` branch returns True), or parses to a date on or after the
next market day after the current date; and the candidate loop places
only still-buyable records into `prev_splits`. -/
theorem claim_C6_still_buyable_characterization :
    (∀ (today : Nat) (s : SplitRec),
      is_still_buyable today s = true ↔
        (pyLower s.effective_date = "unknown" ∨
          parseDateSerial s.effective_date = none ∨
          ∃ d, parseDateSerial s.effective_date = some d ∧ today ≤ d)) ∧
    (∀ (cur : Nat) (now : String) (db : DB) (cands : List SplitRec) (x : SplitRec),
      x ∈ (runCandidates (next_market_day false 1 cur) now db cands).prev →
      is_still_buyable (next_market_day false 1 cur) x = true) := by
  constructor
  · intro today s
    unfold is_still_buyable
    by_cases hu : pyLower s.effective_date = "unknown"
    · rw [if_pos hu]
      simp [hu]
    · rw [if_neg hu]
      cases hp : parseDateSerial s.effective_date with
      | none => simp [hu, hp]
      | some d => simp [hu, hp]
  · intro cur now db cands x hx
    exact prev_sound_aux (next_market_day false 1 cur) now cands
      ⟨⟨db, [], []⟩, []⟩ (by simp) x hx

/-- C6 counterexample: a record whose effective date is the unparsable,
non-"unknown" string "TBD" is classified still-buyable (the parse raises
and the `except` branch returns True), although the claim's
"if and only if" would classify it as not buyable. -/
theorem claim_C6_counterexample_unparsable_buyable :
    is_still_buyable (next_market_day false 1 739709) exRecTBD = true ∧
    pyLower exRecTBD.effective_date ≠ "unknown" ∧
    parseDateSerial exRecTBD.effective_date = none := by
  decide

/-- C6 witness: the soundness half applied to a concrete run in which the
stored `ZZZ|unknown` record is surfaced into `prev_splits`. -/
theorem claim_C6_still_buyable_characterization_witness :
    is_still_buyable (next_market_day false 1 739709) exEntryZZZ.data = true :=
  claim_C6_still_buyable_characterization.2 739709 "2025-06-02 08:00:00"
    [("ZZZ|unknown", exEntryZZZ)] [exCandZZZPlain] exEntryZZZ.data (by decide)

/-- C3 counterexample: a symbol group containing a record with an unknown
effective date makes the cross-source merge raise (the sort key calls
`datetime.strptime`, which raises `ValueError` on "unknown"), instead of
ordering the unknown date as earliest and selecting the dated record. -/
theorem claim_C3_counterexample_unknown_date_raises :
    mergeGroup [exMergeUnknown, exMergeA] =
      Except.error "ValueError: effective_date does not match %Y-%m-%d" ∧
    mergeDateKey exMergeUnknown = none ∧
    (mergeDateKey exMergeA).isSome = true := by
  decide

/-- C3 (amended): within each symbol group the merge sorts by effective
date descending, but every date must parse as `YYYY-MM-DD` — a group
containing an unknown or unparsable date raises instead of sorting it as
earliest.  When all dates parse, the merge succeeds and its
representative is a group member with the most recent date (with only
its article links rewritten to the group's union). -/
theorem claim_C3_merge_selects_latest (g : List SplitRec) (hne : g ≠ [])
    (hall : ∀ x ∈ g, (mergeDateKey x).isSome = true) :
    ∃ r latest, mergeGroup g = Except.ok r ∧ latest ∈ g ∧
      r.symbol = latest.symbol ∧ r.effective_date = latest.effective_date ∧
      r.ratio = latest.ratio ∧ r.fractional = latest.fractional ∧
      (∀ z ∈ g, serialOf z ≤ serialOf latest) := by
  have hallb : g.all (fun x => (mergeDateKey x).isSome) = true := by
    rw [List.all_eq_true]
    intro x hx
    exact hall x hx
  have hperm := List.mergeSort_perm g (fun a b => serialOf b ≤ serialOf a)
  have hsorted := @List.sorted_mergeSort SplitRec
    (fun a b => serialOf b ≤ serialOf a)
    (by
      intro a b c h1 h2
      simp only [decide_eq_true_eq] at h1 h2 ⊢
      omega)
    (by
      intro a b
      simp [Nat.le_total])
    g
  unfold mergeGroup
  rw [if_pos hallb]
  dsimp only
  cases hs : g.mergeSort (fun a b => serialOf b ≤ serialOf a) with
  | nil =>
    exfalso
    rw [hs] at hperm
    exact hne hperm.symm.eq_nil
  | cons latest rest =>
    rw [hs] at hperm hsorted
    have hlmem : latest ∈ g := hperm.mem_iff.mp (List.mem_cons_self _ _)
    have hmax : ∀ z ∈ g, serialOf z ≤ serialOf latest := by
      intro z hz
      have hz' : z ∈ latest :: rest := hperm.mem_iff.mpr hz
      rcases List.mem_cons.mp hz' with rfl | hzr
      · exact Nat.le_refl _
      · have := (List.pairwise_cons.mp hsorted).1 z hzr
        simpa using this
    refine ⟨_, latest, rfl, hlmem, ?_, ?_, ?_, ?_, hmax⟩
    · split <;> rfl
    · split <;> rfl
    · split <;> rfl
    · split <;> rfl

/-- C3 witness: the merge theorem applied to a concrete two-record group
with parseable dates 2025-06-02 and 2025-06-03. -/
theorem claim_C3_merge_selects_latest_witness :
    ∃ r latest, mergeGroup [exMergeA, exMergeB] = Except.ok r ∧
      latest ∈ [exMergeA, exMergeB] ∧
      r.symbol = latest.symbol ∧ r.effective_date = latest.effective_date ∧
      r.ratio = latest.ratio ∧ r.fractional = latest.fractional ∧
      (∀ z ∈ [exMergeA, exMergeB], serialOf z ≤ serialOf latest) :=
  claim_C3_merge_selects_latest [exMergeA, exMergeB] (by decide)
    (by
      intro x hx
      rcases List.mem_cons.mp hx with rfl | hx2
      · decide
      · rcases List.mem_cons.mp hx2 with rfl | hx3
        · decide
        · exact absurd hx3 (by simp))
